import Mathlib

/-!
# A shallow embedding of the wsgi-calculator request handler

This file embeds the decision logic of `calculator.py` (a small WSGI
calculator application) in Lean 4 and proves the behavioural properties
stated in its specification.

The embedded pieces are:

* `out_format` — the output formatter `str(re.sub(".0$", "", str(arg)))`
  modelled as a function on strings.  Note that the pattern contains an
  unescaped regex dot, so it removes *any* non-newline character followed
  by a `0` at the end of the string (also before one final newline, since
  `$` in Python also matches there).
* the path parser of `resolve_path`: the regular expression
  `(add|subtract|divide|multiply)/([-+]?\d*\.\d+|[-+]?\d*)/([-+]?\d*\.\d+|[-+]?\d*)$`
  applied with `re.search` to `path.lstrip("/")`.  Because every
  alternative of the pattern is followed by a context (`/` or the `$`
  anchor) that can never restart inside a digit run, sign or numeric
  alternative, the backtracking behaviour of the Python engine is
  deterministic for this pattern; the parser below implements exactly
  that deterministic reading (leftmost start position, end-anchored,
  greedy digit runs, first alternative that allows the rest of the
  pattern to match).  Python's `$` without `re.MULTILINE` matches at
  the true end of the string and also just before one newline that is
  the last character, so a match may leave exactly one final newline
  unconsumed — both the formatter and the matcher model this.
* the four operation functions `add`, `subtract`, `multiply`, `divide`
  and the name-to-function dictionary (`funcOf`).
* the request handler `application`, including its exception handling:
  `ZeroDivisionError` maps to a 400 page, the caught
  `(NameError, AttributeError, ValueError)` group maps to the usage page,
  and calling a missing (`None`) function would raise an *uncaught*
  `TypeError`, modelled by the handler returning `none`.

Python float arithmetic is not re-implemented bit for bit; instead the
handler is parameterised by a structure `FloatSem` packaging the float
operations the source uses (`float(...)` literal conversion, `+`, `-`,
`*`, `/`, the `== 0.0` test that triggers `ZeroDivisionError`, and
`str(...)` rendering).  Theorems about arithmetic dispatch hold for any
such structure, in particular for IEEE-754 semantics.  For concrete
test-vector claims the structure is instantiated at `calcArith`, a
rational-number instance that agrees with Python floats on the exactly
representable inputs and integral results used by those claims (small
integers are exact in binary floating point, and Python renders an
integral float of magnitude below 10^16 as its decimal digits followed
by `".0"`).
-/

set_option maxRecDepth 40000

namespace WebCalc

/-! ## The output formatter `out_format` -/

/-- Model of `out_format` from `calculator.py`:
`str(re.sub(".0$", "", str(arg)))` acting on the rendered string.
The unescaped dot means: if the string ends with some non-newline
character followed by `'0'`, those two characters are removed; `$` also
matches just before one final newline, which the second branch covers.
Otherwise the string is unchanged. -/
def out_format (s : String) : String :=
  match s.data.reverse with
  | '0' :: c :: r => if c = '\n' then s else ⟨r.reverse⟩
  | '\n' :: '0' :: c :: r => if c = '\n' then s else ⟨('\n' :: r).reverse⟩
  | _ => s

/-! ## The path parser of `resolve_path`

The parser works on `List Char`.  `takeSign` models `[-+]?`, `spanDigits`
models a greedy `\d*`/`\d+` run, `parseNum` models one numeric group
`([-+]?\d*\.\d+|[-+]?\d*)` (first alternative preferred, and the
fraction alternative is taken exactly when a `.` with at least one digit
follows the integer digits — when it is taken, no backtracking into the
second alternative can ever help, because the second alternative leaves
the `.` in place where the pattern then requires `/` or end of input). -/

/-- Is `c` one of the sign characters of `[-+]?`. -/
def isSign (c : Char) : Bool := c = '+' || c = '-'

/-- Consume an optional sign character (`[-+]?`, greedy). -/
def takeSign : List Char → List Char × List Char
  | [] => ([], [])
  | c :: r => if isSign c then ([c], r) else ([], c :: r)

/-- Consume a maximal run of decimal digits (greedy `\d*`).  Python's
`\d` matches any Unicode decimal digit; the inputs that reach the
handler are produced by the latin-1 unquoting of the WSGI server, and
in the latin-1 range the Unicode decimal digits are exactly the ASCII
digits tested here. -/
def spanDigits : List Char → List Char × List Char
  | [] => ([], [])
  | c :: r =>
      if c.isDigit then
        let p := spanDigits r
        (c :: p.1, p.2)
      else ([], c :: r)

/-- After the optional sign `sg` and integer digits `ds` have been
consumed, decide between the two alternatives of the numeric group:
take `.` plus a nonempty digit run when present (first alternative),
otherwise stop (second alternative). -/
def parseNumFrac (sg ds : List Char) (r2 : List Char) : List Char × List Char :=
  match r2 with
  | c :: r3 =>
      if c = '.' then
        match spanDigits r3 with
        | (es, r4) => if es = [] then (sg ++ ds, c :: r3) else (sg ++ ds ++ c :: es, r4)
      else (sg ++ ds, c :: r3)
  | [] => (sg ++ ds, [])

/-- Match one numeric group `([-+]?\d*\.\d+|[-+]?\d*)` at the front of
`l`, returning the captured characters and the rest of the input. -/
def parseNum (l : List Char) : List Char × List Char :=
  match takeSign l with
  | (sg, r1) =>
      match spanDigits r1 with
      | (ds, r2) => parseNumFrac sg ds r2

/-- A list of characters has the shape of one numeric group (the regex
group matches it in full). -/
def validNum (g : List Char) : Bool := decide (parseNum g = (g, []))

/-- Conversion `float(s)` on a string captured by a numeric group succeeds exactly
when the string contains at least one digit (the group shapes are
`[-+]?\d*` and `[-+]?\d*\.\d+`; Python raises `ValueError` on `""`,
`"+"`, `"-"` and accepts every other instance). -/
def floatOk (s : String) : Bool := s.data.any Char.isDigit

/-- Strip a literal token `t` from the front of `l`. -/
def stripPre : List Char → List Char → Option (List Char)
  | [], l => some l
  | _ :: _, [] => none
  | c :: t, x :: l => if c = x then stripPre t l else none

/-- The four operation tokens in the order of the regex alternation
`(add|subtract|divide|multiply)`. -/
def opTokens : List (List Char) :=
  ["add".data, "subtract".data, "divide".data, "multiply".data]

/-- Match the operation group at the front of `l`, trying the
alternatives in order (their first characters are pairwise distinct, so
at most one can apply at a given position). -/
def tryOp (l : List Char) : Option (List Char × List Char) :=
  match stripPre "add".data l with
  | some r => some ("add".data, r)
  | none =>
      match stripPre "subtract".data l with
      | some r => some ("subtract".data, r)
      | none =>
          match stripPre "divide".data l with
          | some r => some ("divide".data, r)
          | none =>
              match stripPre "multiply".data l with
              | some r => some ("multiply".data, r)
              | none => none

/-- Try to match the whole remaining input `l` against
`(op)/(num)/(num)$`: this is the end-anchored body of the pattern, so a
successful match must consume everything up to the end of the string —
except that `$` (without `re.MULTILINE`) also matches just before a
newline that is the last character, so exactly one final newline may
remain unconsumed. -/
def matchAt (l : List Char) : Option (List Char × List Char × List Char) :=
  match tryOp l with
  | none => none
  | some (o, r) =>
      match r with
      | '/' :: r1 =>
          match parseNum r1 with
          | (a, r2) =>
              match r2 with
              | '/' :: r3 =>
                  match parseNum r3 with
                  | (b, r4) =>
                      if r4 = [] ∨ r4 = ['\n'] then some (o, a, b) else none
              | _ => none
      | _ => none

/-- Model of `re.search`: try the match at every start position from the left,
returning the leftmost success. -/
def searchFrom : List Char → Option (List Char × List Char × List Char)
  | [] => matchAt []
  | c :: t =>
      match matchAt (c :: t) with
      | some r => some r
      | none => searchFrom t

/-- Model of `path.lstrip("/")`: remove every leading slash character. -/
def lstripSlash : List Char → List Char
  | [] => []
  | c :: r => if c = '/' then lstripSlash r else c :: r

/-- The parsing part of `resolve_path` from `calculator.py`: the regex
groups `(action, v1, v2)` of the leftmost end-anchored match, or `none`
when `re.search` returns `None` (in the source that `None` makes
`.groups()` raise `AttributeError`, which `application` catches). -/
def resolve_path (path : String) : Option (String × String × String) :=
  (searchFrom (lstripSlash path.data)).map fun g => (⟨g.1⟩, ⟨g.2.1⟩, ⟨g.2.2⟩)

/-! ## Float semantics and the four operations -/

/-- The operations Python float values support in `calculator.py`:
literal conversion (`float(s)` on a string matched by a numeric group),
the four arithmetic operators, the `v == 0.0` test under which `v1 / v2`
raises `ZeroDivisionError`, and `str` rendering.  The handler is proved
correct for an arbitrary such structure; `calcArith` below is the
instance used for concrete evaluation. -/
structure FloatSem (α : Type) where
  ofLit : String → α
  add : α → α → α
  sub : α → α → α
  mul : α → α → α
  div : α → α → α
  isZero : α → Bool
  repr : α → String

/-- Function `add` from `calculator.py`: format the sum. -/
def add {α : Type} (A : FloatSem α) (v1 v2 : α) : String :=
  out_format (A.repr (A.add v1 v2))

/-- Function `subtract` from `calculator.py`: format the difference. -/
def subtract {α : Type} (A : FloatSem α) (v1 v2 : α) : String :=
  out_format (A.repr (A.sub v1 v2))

/-- Function `multiply` from `calculator.py`: format the product. -/
def multiply {α : Type} (A : FloatSem α) (v1 v2 : α) : String :=
  out_format (A.repr (A.mul v1 v2))

/-- Function `divide` from `calculator.py`: format the quotient.  In the source a
zero divisor makes `v1 / v2` raise `ZeroDivisionError` before any string
is produced; `application` models that by testing `isZero` first and
never calling this function with a zero divisor. -/
def divide {α : Type} (A : FloatSem α) (v1 v2 : α) : String :=
  out_format (A.repr (A.div v1 v2))

/-- The four operations as an enumeration (the values of the
name-to-function dictionary in `resolve_path`). -/
inductive Op : Type
  | add
  | subtract
  | divide
  | multiply
deriving DecidableEq

/-- The dictionary `{ "add": add, "subtract": subtract, "divide": divide,
"multiply": multiply }.get(action)` from `resolve_path`. -/
def funcOf (a : String) : Option Op :=
  if a = "add" then some Op.add
  else if a = "subtract" then some Op.subtract
  else if a = "divide" then some Op.divide
  else if a = "multiply" then some Op.multiply
  else none

/-! ## The request handler `application` -/

/-- The usage-page text before the first interpolation of `my_url`
(lines 156–157 of the source). -/
def usagePart1 : String :=
  "<h1>Web Calc 2000</h1></p>To calculate a value, enter a URL in the format:</p>"

/-- The usage-page text between the two interpolations of `my_url`
(lines 158–166 of the source). -/
def usagePart2 : String :=
  "action/value1/value2</p>Where action can be one of the following:<ul><li>add</li><li>subtract</li><li>multiply</li><li>divide</li></ul></p>Example:</p>"

/-- The usage-page text after the second interpolation of `my_url`
(lines 167–168 of the source). -/
def usagePart3 : String :=
  "add/3/2</p>Will result in the browser returning \x275\x27"

/-- The full usage page, as built by the
`except (NameError, AttributeError, ValueError)` branch of
`application`; `u` is the value of the module-level `my_url`. -/
def usageBody (u : String) : String :=
  usagePart1 ++ u ++ usagePart2 ++ u ++ usagePart3

/-- The body built by the `except ZeroDivisionError` branch. -/
def zdBody : String :=
  "<h1>400 Bad Request</h1><h2>ZeroDivision Error!</h2>"

/-- The `try` body of `application` together with its exception
handling, producing `(status, body)`.  `path` is
`environ.get("PATH_INFO", None)` (`none` models an absent key: the
source then calls `None.lstrip`, raising a caught `AttributeError`).
A result of `none` models an exception that the source does *not*
catch — the only candidate is the `TypeError` from calling the `None`
returned by a failed dictionary lookup; the safety theorems show this
never happens. -/
def application {α : Type} (A : FloatSem α) (my_url : String)
    (path : Option String) : Option (String × String) :=
  match path with
  | none => some ("200 OK", usageBody my_url)
  | some p =>
      match resolve_path p with
      | none => some ("200 OK", usageBody my_url)
      | some (action, s1, s2) =>
          if floatOk s1 && floatOk s2 then
            match funcOf action with
            | none => none
            | some op =>
                match op with
                | Op.add => some ("200 OK", add A (A.ofLit s1) (A.ofLit s2))
                | Op.subtract => some ("200 OK", subtract A (A.ofLit s1) (A.ofLit s2))
                | Op.multiply => some ("200 OK", multiply A (A.ofLit s1) (A.ofLit s2))
                | Op.divide =>
                    if A.isZero (A.ofLit s2) then
                      some ("400 Bad Request", zdBody)
                    else
                      some ("200 OK", divide A (A.ofLit s1) (A.ofLit s2))
          else some ("200 OK", usageBody my_url)

/-- Number of bytes `c` occupies in UTF-8 (`body.encode('utf8')`). -/
def charUtf8Len (c : Char) : Nat :=
  if c.toNat < 128 then 1
  else if c.toNat < 2048 then 2
  else if c.toNat < 65536 then 3
  else 4

/-- Number of bytes of `s.encode('utf8')`. -/
def utf8Len (s : String) : Nat := (s.data.map charUtf8Len).sum

/-- The `finally` block of `application`: attach the header list
`[("Content-type", "text/html"), ("Content-length", str(len(body)))]`
(Python `len` of a `str` counts code points, i.e. `String.length`) and
return the status line, headers and body. -/
def respond {α : Type} (A : FloatSem α) (my_url : String)
    (path : Option String) : Option (String × List (String × String) × String) :=
  (application A my_url path).map fun r =>
    (r.1, [("Content-type", "text/html"), ("Content-length", toString r.2.length)], r.2)

/-! ## A concrete float-semantics instance over exact fractions

Exact on the subdomain the concrete claims use: every literal appearing
in them is exactly representable as a binary double, all operations on
those values are exact, and every result is an integer of magnitude
below 10^16, which Python renders as its decimal digits followed by
`".0"`.  Fractions are kept unnormalised (numerator and positive
denominator) so that every operation is plain integer arithmetic. -/

/-- An exact fraction `num / den`.  Every value built by the instance
below has a positive denominator (a power of ten, or a product of such
powers and of a nonzero divisor magnitude). -/
structure PyFloat where
  num : Int
  den : Nat
deriving DecidableEq

/-- The decimal digit character for `n` (callers pass `n ≤ 9`). -/
def digitChar : Nat → Char
  | 0 => '0'
  | 1 => '1'
  | 2 => '2'
  | 3 => '3'
  | 4 => '4'
  | 5 => '5'
  | 6 => '6'
  | 7 => '7'
  | 8 => '8'
  | _ => '9'

/-- Decimal digits of `n`, most significant first (fuel-driven). -/
def natDigitsAux : Nat → Nat → List Char
  | 0, _ => []
  | fuel + 1, n =>
      if n = 0 then [] else natDigitsAux fuel (n / 10) ++ [digitChar (n % 10)]

/-- Decimal rendering of a natural number. -/
def natRepr (n : Nat) : String := if n = 0 then "0" else ⟨natDigitsAux n n⟩

/-- Decimal rendering of an integer. -/
def intRepr (i : Int) : String :=
  if i < 0 then "-" ++ natRepr i.natAbs else natRepr i.natAbs

/-- Modelled rendering of `str(x)` for the exact-fraction instance.
Python renders an integral float of magnitude below 10^16 as its
decimal digits followed by `".0"`; the concrete claims stay inside that
subdomain.  The non-integral branch is a placeholder outside it. -/
def pyStr (x : PyFloat) : String :=
  if x.num % (x.den : Int) = 0 then intRepr (x.num / (x.den : Int)) ++ ".0"
  else intRepr x.num ++ "/" ++ natRepr x.den

/-- Value of a digit run read as a decimal numeral. -/
def digitsVal (l : List Char) : Nat :=
  l.foldl (fun n c => 10 * n + (c.toNat - 48)) 0

/-- Value of `float(s)` for a string of the numeric-group shape, read
exactly (as a fraction with a power-of-ten denominator). -/
def litVal (s : String) : PyFloat :=
  match takeSign s.data with
  | (sg, r1) =>
      match spanDigits r1 with
      | (ds, r2) =>
          let mag : PyFloat :=
            match r2 with
            | '.' :: r3 =>
                ⟨(digitsVal ds : Int) * (10 : Int) ^ (spanDigits r3).1.length
                    + (digitsVal (spanDigits r3).1 : Int),
                  10 ^ (spanDigits r3).1.length⟩
            | _ => ⟨(digitsVal ds : Int), 1⟩
          if sg = ['-'] then ⟨-mag.num, mag.den⟩ else mag

/-- The concrete float-semantics instance over exact fractions. -/
def calcArith : FloatSem PyFloat where
  ofLit := litVal
  add := fun a b => ⟨a.num * (b.den : Int) + b.num * (a.den : Int), a.den * b.den⟩
  sub := fun a b => ⟨a.num * (b.den : Int) - b.num * (a.den : Int), a.den * b.den⟩
  mul := fun a b => ⟨a.num * b.num, a.den * b.den⟩
  div := fun a b => ⟨a.num * (b.den : Int) * b.num.sign, a.den * b.num.natAbs⟩
  isZero := fun x => decide (x.num = 0)
  repr := pyStr

/-! ## Lemmas about the parsing layer -/

theorem stripPre_sound : ∀ t l r : List Char, stripPre t l = some r → l = t ++ r := by
  intro t
  induction t with
  | nil =>
      intro l r h
      simp only [stripPre, Option.some.injEq] at h
      simpa using h
  | cons c t ih =>
      intro l r h
      cases l with
      | nil => simp [stripPre] at h
      | cons x l =>
          by_cases hc : c = x
          · subst hc
            simp only [stripPre, if_pos rfl] at h
            simpa using ih l r h
          · simp [stripPre, hc] at h

theorem stripPre_self : ∀ t r : List Char, stripPre t (t ++ r) = some r := by
  intro t
  induction t with
  | nil => intro r; rfl
  | cons c t ih => intro r; simp [stripPre, ih]

theorem spanDigits_sound : ∀ l d r : List Char, spanDigits l = (d, r) →
    l = d ++ r ∧ (∀ c ∈ d, c.isDigit = true) ∧ (∀ c s, r = c :: s → c.isDigit = false) := by
  intro l
  induction l with
  | nil =>
      intro d r h
      simp only [spanDigits, Prod.mk.injEq] at h
      obtain ⟨rfl, rfl⟩ := h
      simp
  | cons c l ih =>
      intro d r h
      by_cases hc : c.isDigit
      · rcases hsp : spanDigits l with ⟨a, b⟩
        simp only [spanDigits, hc, if_pos, hsp, Prod.mk.injEq] at h
        obtain ⟨rfl, rfl⟩ := h
        obtain ⟨h1, h2, h3⟩ := ih a b hsp
        refine ⟨by simp [h1], ?_, h3⟩
        intro x hx
        rcases List.mem_cons.mp hx with rfl | hx
        · exact hc
        · exact h2 x hx
      · simp only [spanDigits, hc, if_neg, Prod.mk.injEq, Bool.false_eq_true] at h
        obtain ⟨rfl, rfl⟩ := h
        refine ⟨by simp, by simp, ?_⟩
        intro x s hx
        obtain ⟨rfl, -⟩ := List.cons.injEq .. ▸ hx
        · simpa using hc

theorem spanDigits_app : ∀ d t : List Char, (∀ c ∈ d, c.isDigit = true) →
    (∀ c s, t = c :: s → c.isDigit = false) → spanDigits (d ++ t) = (d, t) := by
  intro d
  induction d with
  | nil =>
      intro t _ ht
      cases t with
      | nil => rfl
      | cons c s => simp [spanDigits, ht c s rfl]
  | cons c d ih =>
      intro t hd ht
      have hc : c.isDigit = true := hd c (by simp)
      simp [spanDigits, hc, ih t (fun x hx => hd x (by simp [hx])) ht]

theorem takeSign_sound : ∀ l s r : List Char, takeSign l = (s, r) →
    l = s ++ r ∧ (s = [] ∨ ∃ c, s = [c] ∧ isSign c = true) := by
  intro l s r h
  cases l with
  | nil =>
      simp only [takeSign, Prod.mk.injEq] at h
      obtain ⟨rfl, rfl⟩ := h
      simp
  | cons c l =>
      by_cases hc : isSign c
      · simp only [takeSign, hc, if_pos, Prod.mk.injEq] at h
        obtain ⟨rfl, rfl⟩ := h
        exact ⟨rfl, Or.inr ⟨c, rfl, hc⟩⟩
      · simp only [takeSign, hc, if_neg, Prod.mk.injEq, Bool.false_eq_true] at h
        obtain ⟨rfl, rfl⟩ := h
        simp

theorem takeSign_app : ∀ s t : List Char, (s = [] ∨ ∃ c, s = [c] ∧ isSign c = true) →
    (∀ c r, t = c :: r → isSign c = false) → takeSign (s ++ t) = (s, t) := by
  intro s t hs ht
  rcases hs with rfl | ⟨c, rfl, hc⟩
  · cases t with
    | nil => rfl
    | cons c r => simp [takeSign, ht c r rfl]
  · simp [takeSign, hc]

/-- Shape of the `[-+]?` group: empty, or a single sign character. -/
def signOpt (s : List Char) : Prop := s = [] ∨ ∃ c, s = [c] ∧ isSign c = true

/-- Every character of the run is a decimal digit. -/
def digitRun (d : List Char) : Prop := ∀ c ∈ d, c.isDigit = true

/-- A character that may occur inside a numeric group. -/
def numChar (c : Char) : Prop := c = '+' ∨ c = '-' ∨ c.isDigit = true ∨ c = '.'

theorem sign_not_digit {c : Char} (h : isSign c = true) : c.isDigit = false := by
  simp only [isSign, Bool.or_eq_true, decide_eq_true_eq] at h
  rcases h with rfl | rfl <;> decide

theorem digit_not_sign {c : Char} (h : c.isDigit = true) : isSign c = false := by
  cases hs : isSign c
  · rfl
  · rw [sign_not_digit hs] at h
    cases h

theorem numChar_ne_slash {c : Char} (h : numChar c) : c ≠ '/' := by
  rintro rfl
  rcases h with h | h | h | h <;> exact absurd h (by decide)

theorem numChar_ne_newline {c : Char} (h : numChar c) : c ≠ '\n' := by
  rintro rfl
  rcases h with h | h | h | h <;> exact absurd h (by decide)

theorem parseNum_sound : ∀ l g r : List Char, parseNum l = (g, r) →
    l = g ++ r ∧ ∀ c ∈ g, numChar c := by
  intro l g r h
  rcases hts : takeSign l with ⟨sg, r1⟩
  rcases hsd : spanDigits r1 with ⟨ds, r2⟩
  obtain ⟨hl1, hsg⟩ := takeSign_sound l sg r1 hts
  obtain ⟨hl2, hds, -⟩ := spanDigits_sound r1 ds r2 hsd
  have hsgc : ∀ c ∈ sg, numChar c := by
    rcases hsg with rfl | ⟨c, rfl, hc⟩
    · simp
    · intro x hx
      obtain rfl : x = c := by simpa using hx
      simp only [isSign, Bool.or_eq_true, decide_eq_true_eq] at hc
      rcases hc with rfl | rfl
      · exact Or.inl rfl
      · exact Or.inr (Or.inl rfl)
  have hdsc : ∀ c ∈ ds, numChar c := fun c hc => Or.inr (Or.inr (Or.inl (hds c hc)))
  have hpn : parseNumFrac sg ds r2 = (g, r) := by
    simpa [parseNum, hts, hsd] using h
  rcases r2 with _ | ⟨c, r3⟩
  · simp only [parseNumFrac, Prod.mk.injEq] at hpn
    obtain ⟨rfl, rfl⟩ := hpn
    constructor
    · simp [hl1, hl2]
    · intro c hc
      rcases List.mem_append.mp hc with hc | hc
      · exact hsgc c hc
      · exact hdsc c hc
  · by_cases hc : c = '.'
    · subst hc
      rcases hsp : spanDigits r3 with ⟨es, r4⟩
      obtain ⟨hr3, hes, -⟩ := spanDigits_sound r3 es r4 hsp
      by_cases hes0 : es = []
      · subst hes0
        simp only [parseNumFrac, hsp, if_pos rfl, Prod.mk.injEq] at hpn
        obtain ⟨rfl, rfl⟩ := hpn
        constructor
        · simp [hl1, hl2]
        · intro x hx
          rcases List.mem_append.mp hx with hx | hx
          · exact hsgc x hx
          · exact hdsc x hx
      · simp only [parseNumFrac, hsp, if_pos rfl, if_neg hes0, Prod.mk.injEq] at hpn
        obtain ⟨rfl, rfl⟩ := hpn
        constructor
        · simp only [hl1, hl2, hr3, List.append_assoc, List.cons_append]
        · intro x hx
          simp only [List.mem_append, List.mem_cons] at hx
          rcases hx with (hx | hx) | rfl | hx
          · exact hsgc x hx
          · exact hdsc x hx
          · exact Or.inr (Or.inr (Or.inr rfl))
          · exact Or.inr (Or.inr (Or.inl (hes x hx)))
    · simp only [parseNumFrac, if_neg hc, Prod.mk.injEq] at hpn
      obtain ⟨rfl, rfl⟩ := hpn
      constructor
      · simp [hl1, hl2]
      · intro x hx
        rcases List.mem_append.mp hx with hx | hx
        · exact hsgc x hx
        · exact hdsc x hx

/-- Head condition under which a numeric group cannot extend into `t`:
either `t` is empty, or its first character is no sign, no digit and no
dot (in this file it is always `/`). -/
def numStop (t : List Char) : Prop :=
  ∀ c r, t = c :: r → isSign c = false ∧ c.isDigit = false ∧ c ≠ '.'

theorem numStop_slash (r : List Char) : numStop ('/' :: r) := by
  intro c s h
  obtain ⟨rfl, -⟩ : '/' = c ∧ r = s := by simpa using h
  refine ⟨by decide, by decide, by decide⟩

theorem numStop_nil : numStop ([] : List Char) := by
  intro c s h
  cases h

theorem headNotSign_of_digits_stop (ds t : List Char) (hds : digitRun ds)
    (ht : numStop t) : ∀ c r, ds ++ t = c :: r → isSign c = false := by
  intro c r h
  cases ds with
  | nil => exact (ht c r h).1
  | cons d ds =>
      obtain ⟨rfl, -⟩ : d = c ∧ ds ++ t = r := by simpa using h
      exact digit_not_sign (hds _ (by simp))

theorem parseNum_app_nofrac (sg ds t : List Char) (hsg : signOpt sg)
    (hds : digitRun ds) (ht : numStop t) :
    parseNum (sg ++ ds ++ t) = (sg ++ ds, t) := by
  have h1 : takeSign (sg ++ (ds ++ t)) = (sg, ds ++ t) :=
    takeSign_app sg (ds ++ t) hsg (headNotSign_of_digits_stop ds t hds ht)
  have h2 : spanDigits (ds ++ t) = (ds, t) :=
    spanDigits_app ds t hds (fun c s hcs => ((ht c s hcs).2).1)
  have h3 : parseNumFrac sg ds t = (sg ++ ds, t) := by
    cases t with
    | nil => rfl
    | cons c r => simp [parseNumFrac, ((ht c r rfl).2).2]
  simp [parseNum, List.append_assoc, h1, h2, h3]

theorem parseNum_app_frac (sg ds es t : List Char) (hsg : signOpt sg)
    (hds : digitRun ds) (hes : digitRun es) (hes0 : es ≠ []) (ht : numStop t) :
    parseNum (sg ++ ds ++ '.' :: es ++ t) = (sg ++ ds ++ '.' :: es, t) := by
  have hhead : ∀ c r, ds ++ '.' :: (es ++ t) = c :: r → isSign c = false := by
    intro c r h
    cases ds with
    | nil =>
        obtain ⟨rfl, -⟩ : '.' = c ∧ es ++ t = r := by simpa using h
        decide
    | cons d ds =>
        obtain ⟨rfl, -⟩ : d = c ∧ ds ++ '.' :: (es ++ t) = r := by simpa using h
        exact digit_not_sign (hds _ (by simp))
  have h1 : takeSign (sg ++ (ds ++ '.' :: (es ++ t))) = (sg, ds ++ '.' :: (es ++ t)) :=
    takeSign_app sg (ds ++ '.' :: (es ++ t)) hsg hhead
  have h2 : spanDigits (ds ++ '.' :: (es ++ t)) = (ds, '.' :: (es ++ t)) := by
    refine spanDigits_app ds ('.' :: (es ++ t)) hds ?_
    intro c s h
    obtain ⟨rfl, -⟩ : '.' = c ∧ es ++ t = s := by simpa using h
    decide
  have h3 : spanDigits (es ++ t) = (es, t) :=
    spanDigits_app es t hes (fun c s hcs => ((ht c s hcs).2).1)
  have h4 : parseNumFrac sg ds ('.' :: (es ++ t)) = (sg ++ ds ++ '.' :: es, t) := by
    simp [parseNumFrac, h3, hes0]
  simp [parseNum, List.append_assoc, h1, h2, h4]

/-- Structure of a list fully matched by a numeric group: an optional
sign and a digit run, optionally followed by a dot and a nonempty digit
run. -/
theorem validNum_cases : ∀ n : List Char, validNum n = true →
    (∃ sg ds, n = sg ++ ds ∧ signOpt sg ∧ digitRun ds) ∨
    (∃ sg ds es, n = sg ++ ds ++ '.' :: es ∧ signOpt sg ∧ digitRun ds ∧
      digitRun es ∧ es ≠ []) := by
  intro n h
  have h0 : parseNum n = (n, []) := of_decide_eq_true h
  rcases hts : takeSign n with ⟨sg, r1⟩
  rcases hsd : spanDigits r1 with ⟨ds, r2⟩
  obtain ⟨hl1, hsg⟩ := takeSign_sound n sg r1 hts
  obtain ⟨hl2, hds, -⟩ := spanDigits_sound r1 ds r2 hsd
  have hpn : parseNumFrac sg ds r2 = (n, []) := by
    simpa [parseNum, hts, hsd] using h0
  rcases r2 with _ | ⟨c, r3⟩
  · exact Or.inl ⟨sg, ds, by simp [hl1, hl2], hsg, hds⟩
  · by_cases hc : c = '.'
    · subst hc
      rcases hsp : spanDigits r3 with ⟨es, r4⟩
      obtain ⟨hr3, hes, -⟩ := spanDigits_sound r3 es r4 hsp
      by_cases hes0 : es = []
      · subst hes0
        have hval : parseNumFrac sg ds ('.' :: r3) = (sg ++ ds, '.' :: r3) := by
          simp [parseNumFrac, hsp]
        rw [hval] at hpn
        exact absurd (congrArg Prod.snd hpn) (by simp)
      · have hval : parseNumFrac sg ds ('.' :: r3) = (sg ++ ds ++ '.' :: es, r4) := by
          simp [parseNumFrac, hsp, hes0]
        rw [hval] at hpn
        have hn : sg ++ ds ++ '.' :: es = n := congrArg Prod.fst hpn
        exact Or.inr ⟨sg, ds, es, hn.symm, hsg, hds, hes, hes0⟩
    · have hval : parseNumFrac sg ds (c :: r3) = (sg ++ ds, c :: r3) := by
        simp [parseNumFrac, hc]
      rw [hval] at hpn
      exact absurd (congrArg Prod.snd hpn) (by simp)

/-- A numeric group followed by a stopping context parses to exactly
the group: the engine cannot consume more or fewer characters. -/
theorem parseNum_valid_app : ∀ n t : List Char, validNum n = true → numStop t →
    parseNum (n ++ t) = (n, t) := by
  intro n t hv ht
  rcases validNum_cases n hv with ⟨sg, ds, rfl, hsg, hds⟩ | ⟨sg, ds, es, rfl, hsg, hds, hes, hes0⟩
  · simpa [List.append_assoc] using parseNum_app_nofrac sg ds t hsg hds ht
  · simpa [List.append_assoc] using parseNum_app_frac sg ds es t hsg hds hes hes0 ht

/-- Characters of a numeric group never include `/`. -/
theorem validNum_no_slash : ∀ n : List Char, validNum n = true → ∀ c ∈ n, c ≠ '/' := by
  intro n hv c hc
  have h0 : parseNum n = (n, []) := of_decide_eq_true hv
  exact numChar_ne_slash ((parseNum_sound n n [] h0).2 c hc)

/-- Characters captured by a numeric group of `parseNum` never include
`/`. -/
theorem parseNum_no_slash : ∀ l g r : List Char, parseNum l = (g, r) → ∀ c ∈ g, c ≠ '/' := by
  intro l g r h c hc
  exact numChar_ne_slash ((parseNum_sound l g r h).2 c hc)

/-! ## Lemmas about token matching and the end-anchored search -/

theorem stripPre_none_of_ne_head (t l : List Char) (c x : Char) (hc : c ≠ x) :
    stripPre (c :: t) (x :: l) = none := by
  simp [stripPre, hc]

theorem tryOp_sound : ∀ l o r : List Char, tryOp l = some (o, r) →
    l = o ++ r ∧ o ∈ opTokens := by
  intro l o r h
  unfold tryOp at h
  rcases h1 : stripPre "add".data l with _ | r1 <;> simp only [h1] at h
  case _ =>
    rcases h2 : stripPre "subtract".data l with _ | r2 <;> simp only [h2] at h
    case _ =>
      rcases h3 : stripPre "divide".data l with _ | r3 <;> simp only [h3] at h
      case _ =>
        rcases h4 : stripPre "multiply".data l with _ | r4 <;> simp only [h4] at h
        case _ => cases h
        case _ =>
          obtain ⟨rfl, rfl⟩ : "multiply".data = o ∧ r4 = r := by simpa using h
          exact ⟨stripPre_sound _ _ _ h4, by simp [opTokens]⟩
      case _ =>
        obtain ⟨rfl, rfl⟩ : "divide".data = o ∧ r3 = r := by simpa using h
        exact ⟨stripPre_sound _ _ _ h3, by simp [opTokens]⟩
    case _ =>
      obtain ⟨rfl, rfl⟩ : "subtract".data = o ∧ r2 = r := by simpa using h
      exact ⟨stripPre_sound _ _ _ h2, by simp [opTokens]⟩
  case _ =>
    obtain ⟨rfl, rfl⟩ : "add".data = o ∧ r1 = r := by simpa using h
    exact ⟨stripPre_sound _ _ _ h1, by simp [opTokens]⟩

theorem tryOp_app_add (X : List Char) :
    tryOp ("add".data ++ X) = some ("add".data, X) := by
  unfold tryOp
  rw [stripPre_self]

theorem tryOp_app_subtract (X : List Char) :
    tryOp ("subtract".data ++ X) = some ("subtract".data, X) := by
  have hadd : stripPre "add".data ("subtract".data ++ X) = none :=
    stripPre_none_of_ne_head ['d', 'd'] _ 'a' 's' (by decide)
  unfold tryOp
  rw [hadd, stripPre_self]

theorem tryOp_app_divide (X : List Char) :
    tryOp ("divide".data ++ X) = some ("divide".data, X) := by
  have hadd : stripPre "add".data ("divide".data ++ X) = none :=
    stripPre_none_of_ne_head ['d', 'd'] _ 'a' 'd' (by decide)
  have hsub : stripPre "subtract".data ("divide".data ++ X) = none :=
    stripPre_none_of_ne_head "ubtract".data _ 's' 'd' (by decide)
  unfold tryOp
  rw [hadd, hsub, stripPre_self]

theorem tryOp_app_multiply (X : List Char) :
    tryOp ("multiply".data ++ X) = some ("multiply".data, X) := by
  have hadd : stripPre "add".data ("multiply".data ++ X) = none :=
    stripPre_none_of_ne_head ['d', 'd'] _ 'a' 'm' (by decide)
  have hsub : stripPre "subtract".data ("multiply".data ++ X) = none :=
    stripPre_none_of_ne_head "ubtract".data _ 's' 'm' (by decide)
  have hdiv : stripPre "divide".data ("multiply".data ++ X) = none :=
    stripPre_none_of_ne_head "ivide".data _ 'd' 'm' (by decide)
  unfold tryOp
  rw [hadd, hsub, hdiv, stripPre_self]

theorem matchAt_sound : ∀ l o a b : List Char, matchAt l = some (o, a, b) →
    ∃ t, (t = [] ∨ t = ['\n']) ∧ l = o ++ '/' :: (a ++ '/' :: (b ++ t)) ∧ o ∈ opTokens ∧
    (∀ c ∈ a, numChar c) ∧ (∀ c ∈ b, numChar c) := by
  intro l o a b h
  unfold matchAt at h
  rcases hop : tryOp l with _ | ⟨o1, r⟩ <;> simp only [hop] at h
  · cases h
  · obtain ⟨hl, hmem⟩ := tryOp_sound l o1 r hop
    split at h
    case _ r1 =>
      rcases hpa : parseNum r1 with ⟨a1, r2⟩
      rw [hpa] at h
      dsimp only at h
      split at h
      case _ r3 =>
        rcases hpb : parseNum r3 with ⟨b1, r4⟩
        rw [hpb] at h
        dsimp only at h
        split at h
        case _ hr4 =>
          obtain ⟨rfl, rfl, rfl⟩ : o1 = o ∧ a1 = a ∧ b1 = b := by simpa using h
          obtain ⟨hr1, hac⟩ := parseNum_sound r1 a1 ('/' :: r3) hpa
          obtain ⟨hr3, hbc⟩ := parseNum_sound r3 b1 r4 hpb
          refine ⟨r4, hr4, ?_, hmem, hac, hbc⟩
          rw [hl, hr1, hr3]
        case _ => cases h
      case _ => cases h
    case _ => cases h

theorem matchAt_core : ∀ o n1 n2 : List Char, o ∈ opTokens →
    validNum n1 = true → validNum n2 = true →
    matchAt (o ++ '/' :: (n1 ++ '/' :: n2)) = some (o, n1, n2) := by
  intro o n1 n2 ho h1 h2
  have htop : tryOp (o ++ '/' :: (n1 ++ '/' :: n2)) = some (o, '/' :: (n1 ++ '/' :: n2)) := by
    have ho4 : o = "add".data ∨ o = "subtract".data ∨ o = "divide".data ∨ o = "multiply".data := by
      simpa [opTokens] using ho
    rcases ho4 with rfl | rfl | rfl | rfl
    · exact tryOp_app_add _
    · exact tryOp_app_subtract _
    · exact tryOp_app_divide _
    · exact tryOp_app_multiply _
  have hp1 : parseNum (n1 ++ '/' :: n2) = (n1, '/' :: n2) :=
    parseNum_valid_app n1 ('/' :: n2) h1 (numStop_slash n2)
  have hp2 : parseNum n2 = (n2, []) := of_decide_eq_true h2
  simp [matchAt, htop, hp1, hp2]

theorem searchFrom_of_matchAt : ∀ l : List Char, ∀ g, matchAt l = some g →
    searchFrom l = some g := by
  intro l g h
  cases l with
  | nil => simpa [searchFrom] using h
  | cons c t => simp [searchFrom, h]

theorem searchFrom_cons_of_none : ∀ (c : Char) (t : List Char), matchAt (c :: t) = none →
    searchFrom (c :: t) = searchFrom t := by
  intro c t h
  simp [searchFrom, h]

/-- Splitting at the last slash of a slash-free tail is unambiguous. -/
theorem noslash_split : ∀ m w m2 w2 : List Char, (∀ c ∈ m, c ≠ '/') →
    (∀ c ∈ m2, c ≠ '/') → m ++ '/' :: w = m2 ++ '/' :: w2 → m = m2 ∧ w = w2 := by
  intro m
  induction m with
  | nil =>
      intro w m2 w2 _ hm2 h
      cases m2 with
      | nil => simpa using h
      | cons c r =>
          obtain ⟨rfl, -⟩ : '/' = c ∧ w = r ++ '/' :: w2 := by simpa using h
          exact absurd rfl (hm2 '/' (by simp))
  | cons c m ih =>
      intro w m2 w2 hm hm2 h
      cases m2 with
      | nil =>
          obtain ⟨rfl, -⟩ : c = '/' ∧ m ++ '/' :: w = w2 := by simpa using h
          exact absurd rfl (hm '/' (by simp))
      | cons c2 r =>
          obtain ⟨rfl, h2⟩ : c = c2 ∧ m ++ '/' :: w = r ++ '/' :: w2 := by simpa using h
          obtain ⟨rfl, rfl⟩ :=
            ih w r w2 (fun x hx => hm x (by simp [hx])) (fun x hx => hm2 x (by simp [hx])) h2
          exact ⟨rfl, rfl⟩

/-- The decomposition `u ++ '/' :: v` with `v` slash-free determines
both parts (the last slash is unique). -/
theorem splitLastSlash : ∀ u v uu vv : List Char, (∀ c ∈ v, c ≠ '/') →
    (∀ c ∈ vv, c ≠ '/') → u ++ '/' :: v = uu ++ '/' :: vv → u = uu ∧ v = vv := by
  intro u v uu vv hv hvv h
  have hrev : v.reverse ++ '/' :: u.reverse = vv.reverse ++ '/' :: uu.reverse := by
    have := congrArg List.reverse h
    simpa [List.reverse_append] using this
  obtain ⟨h1, h2⟩ := noslash_split v.reverse u.reverse vv.reverse uu.reverse
    (fun c hc => hv c (List.mem_reverse.mp hc))
    (fun c hc => hvv c (List.mem_reverse.mp hc)) hrev
  exact ⟨List.reverse_injective h2, List.reverse_injective h1⟩

theorem drop_len_append : ∀ y T : List Char, (y ++ T).drop y.length = T := by
  intro y T
  induction y with
  | nil => rfl
  | cons c y ih => exact ih

/-- No operation token is a suffix of a different operation token
(finite check over the four tokens). -/
theorem opTokens_suffix_eq : ∀ o ∈ opTokens, ∀ t ∈ opTokens,
    t.length ≤ o.length → o.drop (o.length - t.length) = t → o = t := by
  decide

/-- A token equal to a nonempty extension of a token is impossible:
if `o = y ++ t` for tokens `o`, `t`, then `y` is empty and `o = t`. -/
theorem token_no_proper_suffix : ∀ o ∈ opTokens, ∀ t ∈ opTokens,
    ∀ y : List Char, o = y ++ t → o = t ∧ y = [] := by
  intro o ho t ht y h
  have hlen : o.length = y.length + t.length := by rw [h, List.length_append]
  have hle : t.length ≤ o.length := by omega
  have hdrop : o.drop (o.length - t.length) = t := by
    rw [h, List.length_append]
    have h2 : y.length + t.length - t.length = y.length := by omega
    rw [h2, drop_len_append]
  have hot : o = t := opTokens_suffix_eq o ho t ht hle hdrop
  refine ⟨hot, List.length_eq_zero.mp ?_⟩
  rw [hot] at hlen
  omega

/-- No list ending in a newline can also be written with a
newline-free final segment after a slash. -/
theorem no_newline_end : ∀ w u v : List Char, (∀ c ∈ v, c ≠ '\n') →
    w ++ ['\n'] = u ++ '/' :: v → False := by
  intro w u v hv h
  have hrev := congrArg List.reverse h
  rw [List.reverse_append] at hrev
  rw [show (u ++ '/' :: v).reverse = v.reverse ++ '/' :: u.reverse by
    simp [List.reverse_append]] at hrev
  cases hv2 : v.reverse with
  | nil =>
      rw [hv2] at hrev
      obtain ⟨h1, -⟩ : '\n' = '/' ∧ w.reverse = u.reverse := by simpa using hrev
      exact absurd h1 (by decide)
  | cons z zs =>
      rw [hv2] at hrev
      obtain ⟨h1, -⟩ : '\n' = z ∧ w.reverse = zs ++ '/' :: u.reverse := by simpa using hrev
      have hz : z ∈ v := List.mem_reverse.mp (hv2 ▸ List.mem_cons_self z zs)
      exact absurd h1.symm (hv z hz)

/-- With a nonempty prefix in front of a full `op/num/num` suffix, the
end-anchored match at the start of the string fails: a success ending
at the true end would decompose the string a second time at its last
two slashes, forcing the prefix into the operation token, and a success
ending before a final newline is impossible because the string ends in
a numeric-group character or a slash. -/
theorem matchAt_none_of_prefix : ∀ x op n1 n2 : List Char, x ≠ [] → op ∈ opTokens →
    validNum n1 = true → validNum n2 = true →
    matchAt (x ++ (op ++ '/' :: (n1 ++ '/' :: n2))) = none := by
  intro x op n1 n2 hx hop h1 h2
  cases hma : matchAt (x ++ (op ++ '/' :: (n1 ++ '/' :: n2))) with
  | none => rfl
  | some g =>
      obtain ⟨o, a, b⟩ := g
      obtain ⟨t, ht, hl, ho, ha, hb⟩ := matchAt_sound _ o a b hma
      have ha2 : ∀ c ∈ a, c ≠ '/' := fun c hc => numChar_ne_slash (ha c hc)
      have hb2 : ∀ c ∈ b, c ≠ '/' := fun c hc => numChar_ne_slash (hb c hc)
      have hn1 : ∀ c ∈ n1, c ≠ '/' := validNum_no_slash n1 h1
      have hn2 : ∀ c ∈ n2, c ≠ '/' := validNum_no_slash n2 h2
      rcases ht with rfl | rfl
      · have e : (o ++ '/' :: a) ++ '/' :: b = ((x ++ op) ++ '/' :: n1) ++ '/' :: n2 := by
          simpa [List.append_assoc] using hl.symm
        obtain ⟨e1, -⟩ :=
          splitLastSlash (o ++ '/' :: a) b ((x ++ op) ++ '/' :: n1) n2 hb2 hn2 e
        obtain ⟨e2, -⟩ := splitLastSlash o a (x ++ op) n1 ha2 hn1 e1
        obtain ⟨-, hx0⟩ := token_no_proper_suffix o ho op hop x e2
        exact absurd hx0 hx
      · have hn2nl : ∀ c ∈ n2, c ≠ '\n' := fun c hc =>
          numChar_ne_newline ((parseNum_sound n2 n2 []
            (of_decide_eq_true h2)).2 c hc)
        have e : (o ++ '/' :: (a ++ '/' :: b)) ++ ['\n'] =
            ((x ++ op) ++ '/' :: n1) ++ '/' :: n2 := by
          simpa [List.append_assoc] using hl.symm
        exact absurd (no_newline_end (o ++ '/' :: (a ++ '/' :: b))
          ((x ++ op) ++ '/' :: n1) n2 hn2nl e) (fun hf => hf)

/-- The leftmost end-anchored match of a string with a full `op/num/num`
suffix is exactly that suffix, whatever precedes it. -/
theorem searchFrom_app_core : ∀ op n1 n2 : List Char, op ∈ opTokens →
    validNum n1 = true → validNum n2 = true → ∀ x : List Char,
    searchFrom (x ++ (op ++ '/' :: (n1 ++ '/' :: n2))) = some (op, n1, n2) := by
  intro op n1 n2 hop h1 h2 x
  induction x with
  | nil =>
      exact searchFrom_of_matchAt _ _ (matchAt_core op n1 n2 hop h1 h2)
  | cons c x ih =>
      have hnone := matchAt_none_of_prefix (c :: x) op n1 n2 (by simp) hop h1 h2
      rw [List.cons_append] at hnone
      rw [List.cons_append, searchFrom_cons_of_none c _ hnone]
      exact ih

/-! ## Lemmas at the level of `resolve_path` -/

theorem lstripSlash_app : ∀ a b : List Char, (∀ c r, b = c :: r → c ≠ '/') →
    ∃ x, lstripSlash (a ++ b) = x ++ b := by
  intro a b hb
  induction a with
  | nil =>
      cases b with
      | nil => exact ⟨[], rfl⟩
      | cons c r => exact ⟨[], by simp [lstripSlash, hb c r rfl]⟩
  | cons c a ih =>
      by_cases hc : c = '/'
      · subst hc
        simpa [lstripSlash] using ih
      · exact ⟨c :: a, by simp [lstripSlash, hc]⟩

theorem searchFrom_mem : ∀ l o a b : List Char, searchFrom l = some (o, a, b) →
    o ∈ opTokens := by
  intro l
  induction l with
  | nil =>
      intro o a b h
      obtain ⟨t, -, -, hmem, -, -⟩ := matchAt_sound [] o a b (by simpa [searchFrom] using h)
      exact hmem
  | cons c t ih =>
      intro o a b h
      rcases hm : matchAt (c :: t) with _ | g
      · rw [searchFrom_cons_of_none c t hm] at h
        exact ih o a b h
      · obtain ⟨o1, a1, b1⟩ := g
        have := searchFrom_of_matchAt (c :: t) _ hm
        rw [this] at h
        obtain ⟨rfl, rfl, rfl⟩ : o1 = o ∧ a1 = a ∧ b1 = b := by simpa using h
        obtain ⟨tt, -, -, hmem, -, -⟩ := matchAt_sound (c :: t) o1 a1 b1 hm
        exact hmem

/-- A successful `resolve_path` always captures one of the four
operation names. -/
theorem resolve_path_mem : ∀ (p : String) (a s1 s2 : String),
    resolve_path p = some (a, s1, s2) →
    a = "add" ∨ a = "subtract" ∨ a = "divide" ∨ a = "multiply" := by
  intro p a s1 s2 h
  unfold resolve_path at h
  rcases hs : searchFrom (lstripSlash p.data) with _ | ⟨o, a1, b1⟩ <;> rw [hs] at h
  · cases h
  · obtain ⟨rfl, -, -⟩ : (⟨o⟩ : String) = a ∧ (⟨a1⟩ : String) = s1 ∧ (⟨b1⟩ : String) = s2 := by
      simpa using h
    have hmem : o ∈ opTokens := searchFrom_mem _ o a1 b1 hs
    have h4 : o = "add".data ∨ o = "subtract".data ∨ o = "divide".data ∨ o = "multiply".data := by
      simpa [opTokens] using hmem
    rcases h4 with rfl | rfl | rfl | rfl
    · exact Or.inl rfl
    · exact Or.inr (Or.inl rfl)
    · exact Or.inr (Or.inr (Or.inl rfl))
    · exact Or.inr (Or.inr (Or.inr rfl))

/-- Soundness of the search with respect to the `$` anchor: every
successful match decomposes the searched string as an ignored prefix
followed by the full `op/num/num` groups, consumed up to the end of the
string or up to one final newline. -/
theorem searchFrom_sound : ∀ l o a b : List Char, searchFrom l = some (o, a, b) →
    ∃ x t, (t = [] ∨ t = ['\n']) ∧ l = x ++ (o ++ '/' :: (a ++ '/' :: (b ++ t))) ∧
    o ∈ opTokens := by
  intro l
  induction l with
  | nil =>
      intro o a b h
      obtain ⟨t, ht, heq, hmem, -, -⟩ := matchAt_sound [] o a b (by simpa [searchFrom] using h)
      exact ⟨[], t, ht, by simpa using heq, hmem⟩
  | cons c tl ih =>
      intro o a b h
      rcases hm : matchAt (c :: tl) with _ | g
      · rw [searchFrom_cons_of_none c tl hm] at h
        obtain ⟨x, t, ht, heq, hmem⟩ := ih o a b h
        exact ⟨c :: x, t, ht, by simp [heq], hmem⟩
      · obtain ⟨o1, a1, b1⟩ := g
        have hs := searchFrom_of_matchAt (c :: tl) _ hm
        rw [hs] at h
        obtain ⟨rfl, rfl, rfl⟩ : o1 = o ∧ a1 = a ∧ b1 = b := by simpa using h
        obtain ⟨t, ht, heq, hmem, -, -⟩ := matchAt_sound (c :: tl) o1 a1 b1 hm
        exact ⟨[], t, ht, by simpa using heq, hmem⟩

/-- End-anchoring law of `resolve_path`: a successful parse consumes
the slash-stripped path to its end, except possibly for one final
newline (the one position Python's `$` also accepts). -/
theorem resolve_path_anchored : ∀ p o a b : String, resolve_path p = some (o, a, b) →
    ∃ x t, (t = [] ∨ t = ['\n']) ∧
      lstripSlash p.data = x ++ (o.data ++ '/' :: (a.data ++ '/' :: (b.data ++ t))) := by
  intro p o a b h
  unfold resolve_path at h
  rcases hs : searchFrom (lstripSlash p.data) with _ | ⟨o1, a1, b1⟩ <;> rw [hs] at h
  · cases h
  · obtain ⟨rfl, rfl, rfl⟩ :
        (⟨o1⟩ : String) = o ∧ (⟨a1⟩ : String) = a ∧ (⟨b1⟩ : String) = b := by
      simpa using h
    obtain ⟨x, t, ht, heq, -⟩ := searchFrom_sound _ o1 a1 b1 hs
    exact ⟨x, t, ht, heq⟩

/-- Suffix-match law of the parser: a path that ends in a full
`op/num/num` suffix resolves to exactly that suffix, whatever precedes
it (the leading text, after `lstrip("/")`, is skipped by the leftmost
search). -/
theorem resolve_path_suffix : ∀ pre op n1 n2 : String, op.data ∈ opTokens →
    validNum n1.data = true → validNum n2.data = true →
    resolve_path (pre ++ op ++ "/" ++ n1 ++ "/" ++ n2) = some (op, n1, n2) := by
  intro pre op n1 n2 hop h1 h2
  have hdata : (pre ++ op ++ "/" ++ n1 ++ "/" ++ n2).data
      = pre.data ++ (op.data ++ '/' :: (n1.data ++ '/' :: n2.data)) := by
    simp [String.data_append]
  have hhead : ∀ c r, (op.data ++ '/' :: (n1.data ++ '/' :: n2.data)) = c :: r → c ≠ '/' := by
    have h4 : op.data = "add".data ∨ op.data = "subtract".data ∨
        op.data = "divide".data ∨ op.data = "multiply".data := by
      simpa [opTokens] using hop
    intro c r h
    rcases h4 with he | he | he | he <;> rw [he] at h
    · obtain ⟨rfl, -⟩ : 'a' = c ∧ _ = r := by simpa using h
      decide
    · obtain ⟨rfl, -⟩ : 's' = c ∧ _ = r := by simpa using h
      decide
    · obtain ⟨rfl, -⟩ : 'd' = c ∧ _ = r := by simpa using h
      decide
    · obtain ⟨rfl, -⟩ : 'm' = c ∧ _ = r := by simpa using h
      decide
  obtain ⟨x, hx⟩ := lstripSlash_app pre.data _ hhead
  unfold resolve_path
  rw [hdata, hx, searchFrom_app_core op.data n1.data n2.data hop h1 h2 x]
  rfl

/-! ## Helpers about `funcOf`, well-formedness, ASCII bodies and infixes -/

/-- The float conversions and the dictionary lookup of a parsed request
succeed: `resolve_path` matched and both operands convert.  Mirrors the
condition separating the `200`-result path from the usage page. -/
def wellFormedB (p : String) : Bool :=
  match resolve_path p with
  | some (_, s1, s2) => floatOk s1 && floatOk s2
  | none => false

theorem funcOf_add : funcOf "add" = some Op.add := by decide

theorem funcOf_subtract : funcOf "subtract" = some Op.subtract := by decide

theorem funcOf_divide : funcOf "divide" = some Op.divide := by decide

theorem funcOf_multiply : funcOf "multiply" = some Op.multiply := by decide

/-- All characters of the list are ASCII (Python renders floats, and
the fixed page texts are written, in ASCII). -/
abbrev asciiL (l : List Char) : Prop := ∀ c ∈ l, c.toNat < 128

theorem asciiL_append {a b : List Char} (ha : asciiL a) (hb : asciiL b) :
    asciiL (a ++ b) := by
  intro c hc
  rcases List.mem_append.mp hc with h | h
  · exact ha c h
  · exact hb c h

theorem utf8Len_ascii_list : ∀ l : List Char, asciiL l →
    (l.map charUtf8Len).sum = l.length := by
  intro l h
  induction l with
  | nil => rfl
  | cons c t ih =>
      have hc : charUtf8Len c = 1 := by
        unfold charUtf8Len
        rw [if_pos (h c (by simp))]
      simp only [List.map_cons, List.sum_cons, hc, List.length_cons]
      rw [ih (fun x hx => h x (by simp [hx]))]
      omega

theorem utf8Len_ascii : ∀ s : String, asciiL s.data → utf8Len s = s.length := by
  intro s h
  exact utf8Len_ascii_list s.data h

theorem out_format_ascii (s : String) (h : asciiL s.data) : asciiL (out_format s).data := by
  have hsplit : ∀ c : Char, ∀ r : List Char, s.data.reverse = c :: r → asciiL r := by
    intro c r heq x hx
    apply h
    have : s.data = (c :: r).reverse := by rw [← heq, List.reverse_reverse]
    rw [this, List.reverse_cons]
    exact List.mem_append.mpr (Or.inl (List.mem_reverse.mpr hx))
  unfold out_format
  split
  case _ c r heq =>
    split
    · exact h
    · intro x hx
      have hx2 : x ∈ r := List.mem_reverse.mp hx
      exact hsplit '0' (c :: r) heq x (by simp [hx2])
  case _ c r heq =>
    split
    · exact h
    · intro x hx
      have hx2 : x ∈ '\n' :: r := by simpa using List.mem_reverse.mp hx
      have hr : asciiL ('0' :: c :: r) := hsplit '\n' ('0' :: c :: r) heq
      rcases List.mem_cons.mp hx2 with rfl | hx3
      · decide
      · exact hr x (by simp [hx3])
  case _ => exact h

theorem digitChar_ascii : ∀ n : Nat, (digitChar n).toNat < 128 := by
  intro n
  unfold digitChar
  split <;> decide

theorem natDigitsAux_ascii : ∀ fuel n : Nat, asciiL (natDigitsAux fuel n) := by
  intro fuel
  induction fuel with
  | zero => intro n c hc; cases hc
  | succ fuel ih =>
      intro n c hc
      unfold natDigitsAux at hc
      split at hc
      · cases hc
      · rcases List.mem_append.mp hc with h | h
        · exact ih _ c h
        · obtain rfl : c = digitChar (n % 10) := by simpa using h
          exact digitChar_ascii _

theorem natRepr_ascii : ∀ n : Nat, asciiL (natRepr n).data := by
  intro n
  unfold natRepr
  split
  · decide
  · exact natDigitsAux_ascii n n

theorem intRepr_ascii : ∀ i : Int, asciiL (intRepr i).data := by
  intro i
  unfold intRepr
  split
  · rw [String.data_append]
    exact asciiL_append (by decide) (natRepr_ascii _)
  · exact natRepr_ascii _

theorem pyStr_ascii : ∀ x : PyFloat, asciiL (pyStr x).data := by
  intro x
  unfold pyStr
  split
  · rw [String.data_append]
    exact asciiL_append (intRepr_ascii _) (by decide)
  · rw [String.data_append, String.data_append]
    exact asciiL_append (asciiL_append (intRepr_ascii _) (by decide)) (natRepr_ascii _)

theorem usageBody_ascii (u : String) (hu : asciiL u.data) : asciiL (usageBody u).data := by
  unfold usageBody
  simp only [String.data_append]
  exact asciiL_append (asciiL_append (asciiL_append (asciiL_append (by decide) hu)
    (by decide)) hu) (by decide)

theorem inf_app_left {l m : List Char} (x : List Char) (h : l <:+: m) :
    l <:+: x ++ m := by
  obtain ⟨s, t, rfl⟩ := h
  exact ⟨x ++ s, t, by simp⟩

theorem inf_app_right {l m : List Char} (x : List Char) (h : l <:+: m) :
    l <:+: m ++ x := by
  obtain ⟨s, t, rfl⟩ := h
  exact ⟨s, t ++ x, by simp⟩

/-- The four operation names all occur in the usage page, whatever the
interpolated base URL is. -/
theorem usage_names_infix (u : String) :
    ∀ nm ∈ (["add", "subtract", "multiply", "divide"] : List String),
      nm.data <:+: (usageBody u).data := by
  intro nm hnm
  have h2 : nm.data <:+: usagePart2.data := by
    simp only [List.mem_cons, List.not_mem_nil, or_false] at hnm
    rcases hnm with rfl | rfl | rfl | rfl <;> decide
  have hb : (usageBody u).data =
      usagePart1.data ++ (u.data ++ (usagePart2.data ++ (u.data ++ usagePart3.data))) := by
    simp [usageBody, String.data_append]
  rw [hb]
  exact inf_app_left _ (inf_app_left _ (inf_app_right _ h2))

/-- Every body the handler can hand to the `finally` block is ASCII,
provided the configured base URL and the float rendering are (both hold
for the real program: the URL is built from an IP address and a port,
and Python renders floats in ASCII). -/
theorem application_body_ascii {α : Type} (A : FloatSem α) (u : String) (p : Option String)
    (hu : asciiL u.data) (hA : ∀ x : α, asciiL (A.repr x).data) :
    ∀ st b : String, application A u p = some (st, b) → asciiL b.data := by
  intro st b h
  rcases p with _ | p
  · obtain ⟨-, rfl⟩ : "200 OK" = st ∧ usageBody u = b := by simpa [application] using h
    exact usageBody_ascii u hu
  · unfold application at h
    dsimp only at h
    rcases hr : resolve_path p with _ | ⟨a, s1, s2⟩
    · rw [hr] at h
      dsimp only at h
      obtain ⟨-, rfl⟩ : "200 OK" = st ∧ usageBody u = b := by simpa using h
      exact usageBody_ascii u hu
    · rw [hr] at h
      dsimp only at h
      split at h
      · rcases hf : funcOf a with _ | op
        · rw [hf] at h
          dsimp only at h
          cases h
        · rw [hf] at h
          dsimp only at h
          cases op <;> dsimp only at h
          · obtain ⟨-, rfl⟩ : "200 OK" = st ∧ add A (A.ofLit s1) (A.ofLit s2) = b := by
              simpa using h
            exact out_format_ascii _ (hA _)
          · obtain ⟨-, rfl⟩ : "200 OK" = st ∧ subtract A (A.ofLit s1) (A.ofLit s2) = b := by
              simpa using h
            exact out_format_ascii _ (hA _)
          · split at h
            · obtain ⟨-, rfl⟩ : "400 Bad Request" = st ∧ zdBody = b := by simpa using h
              decide
            · obtain ⟨-, rfl⟩ : "200 OK" = st ∧ divide A (A.ofLit s1) (A.ofLit s2) = b := by
                simpa using h
              exact out_format_ascii _ (hA _)
          · obtain ⟨-, rfl⟩ : "200 OK" = st ∧ multiply A (A.ofLit s1) (A.ofLit s2) = b := by
              simpa using h
            exact out_format_ascii _ (hA _)
      · obtain ⟨-, rfl⟩ : "200 OK" = st ∧ usageBody u = b := by simpa using h
        exact usageBody_ascii u hu

/-! ## The claims -/

/-- C1 (code bug): the spec says only the exact two-character suffix
".0" is stripped by the output formatter and every other rendering is
returned unchanged.  The pattern `".0$"` in the code has an unescaped dot,
so while renderings ending in ".0" are indeed stripped and most others
are unchanged, a rendering ending in any other character followed by
'0' — reachable, e.g. `str(1e20) == "1e+20"` — loses its last two
characters, contradicting both the spec and the docstring of the
function ("a STRING containing the value"). -/
theorem claim1_out_format_eval :
    out_format "15.0" = "15" ∧ out_format "2.5" = "2.5" ∧
    out_format "10.0001" = "10.0001" ∧
    out_format "1e+20" = "1e+" ∧ out_format "1.10" = "1." := by
  exact ⟨by decide, by decide, by decide, by decide, by decide⟩

/-- C2 (amended): every request whose path has no well-formed
`operation/num/num` suffix with parseable operands — where the suffix
may be followed by at most one final newline, the extra position
accepted by Python's `$` anchor — including the bare root, unknown
operations, trailing garbage other than that single newline, and an
absent path — gets status `200 OK` with the usage page, which lists
all four operation names; no 4xx/5xx is ever produced for these
inputs.  The original claim, which put every path with trailing
content after the second operand into this set, is refuted by the
counterexample below. -/
theorem claim2_malformed_usage {α : Type} (A : FloatSem α) (u : String) :
    (∀ p : String, wellFormedB p = false →
      application A u (some p) = some ("200 OK", usageBody u)) ∧
    application A u none = some ("200 OK", usageBody u) ∧
    ∀ nm ∈ (["add", "subtract", "multiply", "divide"] : List String),
      nm.data <:+: (usageBody u).data := by
  refine ⟨?_, rfl, usage_names_infix u⟩
  intro p hw
  unfold wellFormedB at hw
  rcases hr : resolve_path p with _ | ⟨a, s1, s2⟩ <;> rw [hr] at hw
  · simp [application, hr]
  · dsimp only at hw
    unfold application
    dsimp only
    rw [hr]
    dsimp only
    rw [if_neg (by simp [hw])]

theorem claim2_malformed_usage_witness :
    application calcArith "http://10.0.0.2:8080/" (some "/") =
      some ("200 OK", usageBody "http://10.0.0.2:8080/") ∧
    "subtract".data <:+: (usageBody "http://10.0.0.2:8080/").data :=
  ⟨(claim2_malformed_usage calcArith "http://10.0.0.2:8080/").1 "/" (by decide),
    (claim2_malformed_usage calcArith "http://10.0.0.2:8080/").2.2 "subtract" (by simp)⟩

/-- C2, counterexample to the original claim: the path `/add/3/5\n`
has trailing content after its second operand, yet the `$` anchor of
the source pattern matches just before the final newline, so the
request resolves and the handler returns the computed sum with status
200 — not the usage page the original claim demands for it. -/
theorem claim2_trailing_newline_counterexample :
    application calcArith "U" (some "/add/3/5\n") = some ("200 OK", "8") ∧
    application calcArith "U" (some "/add/3/5\n") ≠ some ("200 OK", usageBody "U") := by
  exact ⟨by decide, by decide⟩

/-- C3: a parsed `divide` request whose divisor converts to a value the
float semantics regards as exactly zero yields `400 Bad Request` with
the fixed error page (containing the two headings); a nonzero divisor
yields `200 OK` with the formatted quotient. -/
theorem claim3_divide_zero {α : Type} (A : FloatSem α) (u p s1 s2 : String)
    (hr : resolve_path p = some ("divide", s1, s2))
    (h1 : floatOk s1 = true) (h2 : floatOk s2 = true) :
    (A.isZero (A.ofLit s2) = true →
      application A u (some p) = some ("400 Bad Request", zdBody) ∧
      "400 Bad Request".data <:+: zdBody.data ∧
      "ZeroDivision Error!".data <:+: zdBody.data) ∧
    (A.isZero (A.ofLit s2) = false →
      application A u (some p) =
        some ("200 OK", divide A (A.ofLit s1) (A.ofLit s2))) := by
  have happ : application A u (some p) =
      (if A.isZero (A.ofLit s2) then some ("400 Bad Request", zdBody)
       else some ("200 OK", divide A (A.ofLit s1) (A.ofLit s2))) := by
    simp [application, hr, h1, h2, funcOf_divide]
  constructor
  · intro hz
    rw [happ, if_pos hz]
    exact ⟨rfl, by decide, by decide⟩
  · intro hz
    rw [happ, if_neg (by simp [hz])]

theorem claim3_divide_zero_witness :
    application calcArith "U" (some "/divide/6/0") = some ("400 Bad Request", zdBody) ∧
    application calcArith "U" (some "/divide/6/-0.0") = some ("400 Bad Request", zdBody) ∧
    application calcArith "U" (some "/divide/22/11") = some ("200 OK", "2") := by
  refine ⟨?_, ?_, ?_⟩
  · exact ((claim3_divide_zero calcArith "U" "/divide/6/0" "6" "0"
      (by decide) (by decide) (by decide)).1 (by decide)).1
  · exact ((claim3_divide_zero calcArith "U" "/divide/6/-0.0" "6" "-0.0"
      (by decide) (by decide) (by decide)).1 (by decide)).1
  · have h := (claim3_divide_zero calcArith "U" "/divide/22/11" "22" "11"
      (by decide) (by decide) (by decide)).2 (by decide)
    rw [h]
    decide

/-- C4: the four concrete request/response pairs of the specification,
evaluated in the exact-fraction instance (all inputs and results are
exactly representable doubles, rendered by Python as digits plus ".0"
and reformatted by `out_format`). -/
theorem claim4_test_vectors :
    application calcArith "U" (some "/multiply/3/5") = some ("200 OK", "15") ∧
    application calcArith "U" (some "/add/23/42") = some ("200 OK", "65") ∧
    application calcArith "U" (some "/subtract/23/42") = some ("200 OK", "-19") ∧
    application calcArith "U" (some "/divide/22/11") = some ("200 OK", "2") := by
  exact ⟨by decide, by decide, by decide, by decide⟩

/-- C5 (amended): path matching is a suffix search.  Any path ending in
a full `operation/num/num` suffix resolves to exactly that suffix,
whatever text precedes the operation token; every successful parse is
end-anchored — it consumes the slash-stripped path to its end, except
that Python's `$` also accepts exactly one final newline, which is the
one kind of trailing content after the second operand that does not
make the match fail (the original unconditional trailing-content clause
is refuted by the counterexample below); `/foo/add/3/5` computes the
sum of 3 and 5 with status 200, `/add/3/5/7` fails to match, and
`/add/3/5` followed by one newline resolves to (add, 3, 5). -/
theorem claim5_suffix_search {α : Type} (A : FloatSem α) (u : String) :
    (∀ pre op n1 n2 : String, op.data ∈ opTokens →
      validNum n1.data = true → validNum n2.data = true →
      resolve_path (pre ++ op ++ "/" ++ n1 ++ "/" ++ n2) = some (op, n1, n2)) ∧
    (∀ p o a b : String, resolve_path p = some (o, a, b) →
      ∃ x t, (t = [] ∨ t = ['\n']) ∧
        lstripSlash p.data = x ++ (o.data ++ '/' :: (a.data ++ '/' :: (b.data ++ t)))) ∧
    application A u (some "/foo/add/3/5") =
      some ("200 OK", add A (A.ofLit "3") (A.ofLit "5")) ∧
    resolve_path "/add/3/5/7" = none ∧
    resolve_path "/add/3/5\n" = some ("add", "3", "5") := by
  refine ⟨resolve_path_suffix, resolve_path_anchored, ?_, by decide, by decide⟩
  have hr : resolve_path "/foo/add/3/5" = some ("add", "3", "5") := by decide
  have h1 : floatOk "3" = true := by decide
  have h2 : floatOk "5" = true := by decide
  simp [application, hr, h1, h2, funcOf_add]

theorem claim5_suffix_search_witness :
    resolve_path ("/x/" ++ "add" ++ "/" ++ "3" ++ "/" ++ "5") = some ("add", "3", "5") ∧
    (∃ x t, (t = [] ∨ t = ['\n']) ∧
      lstripSlash ("/add/3/5" : String).data =
        x ++ (("add" : String).data ++ '/' ::
          (("3" : String).data ++ '/' :: (("5" : String).data ++ t)))) ∧
    application calcArith "U" (some "/foo/add/3/5") =
      some ("200 OK", add calcArith (calcArith.ofLit "3") (calcArith.ofLit "5")) :=
  ⟨(claim5_suffix_search calcArith "U").1 "/x/" "add" "3" "5"
      (by decide) (by decide) (by decide),
    (claim5_suffix_search calcArith "U").2.1 "/add/3/5" "add" "3" "5" (by decide),
    (claim5_suffix_search calcArith "U").2.2.1⟩

/-- C5, counterexample to the original claim: trailing content after
the second operand does not always make the match fail — a single
final newline sits in the extra position the `$` anchor accepts, the
path resolves, and the handler computes the result. -/
theorem claim5_trailing_newline_counterexample :
    resolve_path "/add/3/5\n" = some ("add", "3", "5") ∧
    application calcArith "U" (some "/add/3/5\n") = some ("200 OK", "8") := by
  exact ⟨by decide, by decide⟩

/-- C6: for a parsed request the value computed before formatting is
exactly the corresponding operation of the float semantics applied to
the converted operands — `add` adds, `subtract` subtracts, `multiply`
multiplies, and `divide` (with a nonzero divisor) divides. -/
theorem claim6_arith_dispatch {α : Type} (A : FloatSem α) (u p s1 s2 : String)
    (h1 : floatOk s1 = true) (h2 : floatOk s2 = true) :
    (resolve_path p = some ("add", s1, s2) →
      application A u (some p) =
        some ("200 OK", out_format (A.repr (A.add (A.ofLit s1) (A.ofLit s2))))) ∧
    (resolve_path p = some ("subtract", s1, s2) →
      application A u (some p) =
        some ("200 OK", out_format (A.repr (A.sub (A.ofLit s1) (A.ofLit s2))))) ∧
    (resolve_path p = some ("multiply", s1, s2) →
      application A u (some p) =
        some ("200 OK", out_format (A.repr (A.mul (A.ofLit s1) (A.ofLit s2))))) ∧
    (resolve_path p = some ("divide", s1, s2) → A.isZero (A.ofLit s2) = false →
      application A u (some p) =
        some ("200 OK", out_format (A.repr (A.div (A.ofLit s1) (A.ofLit s2))))) := by
  refine ⟨fun hr => ?_, fun hr => ?_, fun hr => ?_, fun hr hz => ?_⟩
  · simp [application, hr, h1, h2, funcOf_add, add]
  · simp [application, hr, h1, h2, funcOf_subtract, subtract]
  · simp [application, hr, h1, h2, funcOf_multiply, multiply]
  · simp [application, hr, h1, h2, funcOf_divide, hz, divide]

theorem claim6_arith_dispatch_witness :
    application calcArith "U" (some "/add/23/42") =
      some ("200 OK",
        out_format (calcArith.repr (calcArith.add (calcArith.ofLit "23")
          (calcArith.ofLit "42")))) :=
  (claim6_arith_dispatch calcArith "U" "/add/23/42" "23" "42"
    (by decide) (by decide)).1 (by decide)

/-- C7: the handler is total — for every path (present or absent,
however malformed, including operands that match the regex with zero
digits and fail float conversion) it reaches the `finally` block with
one of the three well-formed responses: a formatted result, the
division-by-zero error page, or the usage page.  In particular the
`none` branch of the dictionary lookup (an uncaught `TypeError`) is
never taken. -/
theorem claim7_total {α : Type} (A : FloatSem α) (u : String) (path : Option String) :
    ∃ r : String × String, application A u path = some r ∧
      (r = ("200 OK", usageBody u) ∨ r = ("400 Bad Request", zdBody) ∨
        (r.1 = "200 OK" ∧ ∃ v : α, r.2 = out_format (A.repr v))) := by
  rcases path with _ | p
  · exact ⟨("200 OK", usageBody u), rfl, Or.inl rfl⟩
  · rcases hr : resolve_path p with _ | ⟨a, s1, s2⟩
    · exact ⟨("200 OK", usageBody u), by simp [application, hr], Or.inl rfl⟩
    · cases hf : floatOk s1 && floatOk s2
      · exact ⟨("200 OK", usageBody u), by simp [application, hr, hf], Or.inl rfl⟩
      · rcases resolve_path_mem p a s1 s2 hr with rfl | rfl | rfl | rfl
        · exact ⟨("200 OK", add A (A.ofLit s1) (A.ofLit s2)),
            by simp [application, hr, hf, funcOf_add],
            Or.inr (Or.inr ⟨rfl, A.add (A.ofLit s1) (A.ofLit s2), rfl⟩)⟩
        · exact ⟨("200 OK", subtract A (A.ofLit s1) (A.ofLit s2)),
            by simp [application, hr, hf, funcOf_subtract],
            Or.inr (Or.inr ⟨rfl, A.sub (A.ofLit s1) (A.ofLit s2), rfl⟩)⟩
        · cases hz : A.isZero (A.ofLit s2)
          · exact ⟨("200 OK", divide A (A.ofLit s1) (A.ofLit s2)),
              by simp [application, hr, hf, funcOf_divide, hz],
              Or.inr (Or.inr ⟨rfl, A.div (A.ofLit s1) (A.ofLit s2), rfl⟩)⟩
          · exact ⟨("400 Bad Request", zdBody),
              by simp [application, hr, hf, funcOf_divide, hz],
              Or.inr (Or.inl rfl)⟩
        · exact ⟨("200 OK", multiply A (A.ofLit s1) (A.ofLit s2)),
            by simp [application, hr, hf, funcOf_multiply],
            Or.inr (Or.inr ⟨rfl, A.mul (A.ofLit s1) (A.ofLit s2), rfl⟩)⟩

/-- C8: the handler is deterministic — with a fixed float semantics and
a fixed base URL, two invocations on the same path produce identical
status lines, identical header lists and identical bodies (the model is
a pure function of its inputs, mirroring that the source reads no
mutable state besides the module-level `my_url`). -/
theorem claim8_deterministic {α : Type} (A : FloatSem α) (u : String) (p : Option String)
    (r1 r2 : Option (String × List (String × String) × String))
    (h1 : respond A u p = r1) (h2 : respond A u p = r2) : r1 = r2 := by
  rw [← h1, ← h2]

theorem claim8_deterministic_witness :
    respond calcArith "U" (some "/add/3/5") =
      some ("200 OK",
        [("Content-type", "text/html"), ("Content-length", "1")], "8") :=
  claim8_deterministic calcArith "U" (some "/add/3/5") _ _ rfl (by decide)

/-- C9: in every response the `Content-length` header (set by the
source to `str(len(body))`, a code-point count) equals the number of
bytes of the UTF-8-encoded body actually returned, because every body
the handler produces is ASCII whenever the base URL and the float
rendering are. -/
theorem claim9_content_length {α : Type} (A : FloatSem α) (u : String) (path : Option String)
    (hu : asciiL u.data) (hA : ∀ x : α, asciiL (A.repr x).data) :
    ∀ st hs b, respond A u path = some (st, hs, b) →
      hs = [("Content-type", "text/html"), ("Content-length", toString (utf8Len b))] ∧
      utf8Len b = b.length := by
  intro st hs b h
  unfold respond at h
  rcases happ : application A u path with _ | ⟨st0, b0⟩ <;> rw [happ] at h
  · cases h
  · obtain ⟨rfl, rfl, rfl⟩ : st0 = st ∧
        [("Content-type", "text/html"), ("Content-length", toString b0.length)] = hs ∧
        b0 = b := by simpa using h
    have hascii := application_body_ascii A u path hu hA st0 b0 happ
    have hlen : utf8Len b0 = b0.length := utf8Len_ascii b0 hascii
    exact ⟨by rw [hlen], hlen⟩

theorem claim9_content_length_witness :
    [("Content-type", "text/html"), ("Content-length", "1")] =
      [("Content-type", "text/html"), ("Content-length", toString (utf8Len "8"))] ∧
    utf8Len "8" = "8".length :=
  claim9_content_length calcArith "U" (some "/add/3/5") (by decide)
    (fun x => pyStr_ascii x) "200 OK"
    [("Content-type", "text/html"), ("Content-length", "1")] "8" (by decide)

/-- C10: whenever the path regex match succeeds, the captured operation
token is one of the four dictionary keys, so the dictionary lookup
returns a function and the handler never calls `None` — the
unknown-operation branch is unreachable after a successful match. -/
theorem claim10_op_known (p a s1 s2 : String) (h : resolve_path p = some (a, s1, s2)) :
    (a = "add" ∨ a = "subtract" ∨ a = "divide" ∨ a = "multiply") ∧
    (funcOf a).isSome = true := by
  have hm := resolve_path_mem p a s1 s2 h
  refine ⟨hm, ?_⟩
  rcases hm with rfl | rfl | rfl | rfl <;> decide

theorem claim10_op_known_witness :
    ("add" = "add" ∨ "add" = "subtract" ∨ "add" = "divide" ∨ "add" = "multiply") ∧
    (funcOf "add").isSome = true :=
  claim10_op_known "/add/1/2" "add" "1" "2" (by decide)

end WebCalc
